import Mathlib

/-!
Verification of the Mihu-Mihu student dashboard (`DASHBOARD MIHU-MIHU/Dashboard.py`).

The script is embedded shallowly:
* a cell `Value` is `null` (pandas `NaN` / missing), a string, or a number
  (GPA values; modelled as `Rat`, exact where floats are approximate);
* a `Row` is an association list from column names to cells, a `Table` is a
  column list plus a row list (pandas keeps every column in every row, which
  is the well-formedness predicate `Table.WF`);
* the masking helpers `mask_name`, `mask_npm`, `mask_phone` (source lines
  71-89) operate on `List Char` images of Python strings.  `str()` of a
  missing value renders as `"nan"` exactly as pandas `NaN` does; numeric
  formatting of `str()` on floats is abstracted (`toString` of the rational)
  since no property below depends on it;
* the sidebar filter block (lines 107-142) becomes `applyFilters`, gated the
  way the script gates it: the faculty/semester dimension applies only when
  the corresponding option list (distinct non-null values of the column) is
  non-empty, the GPA dimension only when the slider produced bounds;
* `value_counts` / `interpret_top_category` (lines 25-43) become
  `valueCounts` / `interpret_top_category`, with the caption abstracted to
  the data it interpolates (top label, its count, the total).
-/

namespace Mihu

/-- A cell of the dataframe: missing (`NaN`), a string, or a number. -/
inductive Value where
  | null : Value
  | str : String → Value
  | num : Rat → Value
deriving DecidableEq

/-- A row: association list from column name to cell value. -/
abbrev Row := List (String × Value)

/-- Cell lookup; a missing entry reads as `null` (pandas fills absent cells
with `NaN`). -/
def getCell (r : Row) (c : String) : Value :=
  match r.find? (fun p => p.1 == c) with
  | some p => p.2
  | none => Value.null

/-- Apply `f` to the cell of column `c`, as `df[c] = df[c].apply(f)` does
row-wise. -/
def mapCell (r : Row) (c : String) (f : Value → Value) : Row :=
  r.map (fun p => if p.1 == c then (p.1, f p.2) else p)

/-- A dataframe: its column list and its rows. -/
structure Table where
  cols : List String
  rows : List Row
deriving DecidableEq

/-- `c in df.columns`. -/
def hasCol (t : Table) (c : String) : Bool :=
  t.cols.contains c

/-- The column `df[c]` as a list of cells (one per row). -/
def colValues (t : Table) (c : String) : List Value :=
  t.rows.map (fun r => getCell r c)

/-- Pandas well-formedness: no duplicate column names, and every row carries
exactly the table's columns, in order. -/
def Table.WF (t : Table) : Prop :=
  t.cols.Nodup ∧ ∀ r ∈ t.rows, r.map Prod.fst = t.cols

/-- `series.dropna()`: the non-null cells. -/
def nonNull (vs : List Value) : List Value :=
  vs.filter (fun v => v != Value.null)

/-- `sorted(df[c].dropna().unique()) if c in df.columns else []` (lines
107-108).  Only membership and emptiness of the option list matter below, so
the sort is dropped and `unique` becomes `dedup`. -/
def optionsOf (t : Table) (c : String) : List Value :=
  if hasCol t c then (nonNull (colValues t c)).dedup else []

-- ------------------------------------------------------------------
-- Masking helpers (source lines 71-89)
-- ------------------------------------------------------------------

/-- Python `str()` of a cell.  A missing cell is pandas `NaN`, whose `str()`
is `"nan"`; float formatting is abstracted as no claim depends on it. -/
def pyStrV : Value → List Char
  | Value.null => ['n', 'a', 'n']
  | Value.str s => s.data
  | Value.num q => (toString q).data

/-- `mask_npm` on the character list of `str(npm)` (lines 78-82). -/
def maskNpmL (s : List Char) : List Char :=
  if s.length ≤ 3 then List.replicate s.length '*'
  else s.take 3 ++ List.replicate 5 '*'

/-- `mask_npm(npm)` (lines 78-82): no null guard, the cell is stringified
unconditionally. -/
def mask_npm (v : Value) : Value :=
  Value.str (String.mk (maskNpmL (pyStrV v)))

/-- `mask_phone` on the character list of `str(phone)` (lines 84-89). -/
def maskPhoneL (s : List Char) : List Char :=
  let digits := s.filter Char.isDigit
  if digits.length ≤ 3 then List.replicate digits.length '*'
  else digits.take 3 ++ List.replicate (digits.length - 3) '*'

/-- `mask_phone(phone)` (lines 84-89): no null guard either. -/
def mask_phone (v : Value) : Value :=
  Value.str (String.mk (maskPhoneL (pyStrV v)))

/-- `str.split()` with separator runs kept as empty pieces; the empty pieces
are dropped by `splitWs` below, matching Python's whitespace `split`. -/
def splitWsRaw : List Char → List (List Char)
  | [] => [[]]
  | c :: cs =>
    if c.isWhitespace then [] :: splitWsRaw cs
    else
      match splitWsRaw cs with
      | [] => [[c]]
      | w :: ws => (c :: w) :: ws

/-- Python `s.split()`: whitespace-separated tokens, empties dropped. -/
def splitWs (s : List Char) : List (List Char) :=
  (splitWsRaw s).filter (fun w => !w.isEmpty)

/-- `p[0] + "*" * (len(p) - 1)` for one token (line 75). -/
def maskToken : List Char → List Char
  | [] => []
  | c :: cs => c :: List.replicate cs.length '*'

/-- `" ".join(parts)`. -/
def joinSp : List (List Char) → List Char
  | [] => []
  | [w] => w
  | w :: ws => w ++ ' ' :: joinSp ws

/-- `mask_name` body on the character list of `str(name)` (lines 74-76). -/
def maskNameL (s : List Char) : List Char :=
  joinSp ((splitWs s).map maskToken)

/-- `mask_name(name)` (lines 71-76): unlike the other two maskers it guards
with `pd.isna` and passes missing values through unchanged. -/
def mask_name (v : Value) : Value :=
  match v with
  | Value.null => Value.null
  | v => Value.str (String.mk (maskNameL (pyStrV v)))

-- ------------------------------------------------------------------
-- Masking the table (source lines 92-101)
-- ------------------------------------------------------------------

/-- `if c in df.columns: df[c] = df[c].apply(f)`. -/
def maskCol (t : Table) (c : String) (f : Value → Value) : Table :=
  if hasCol t c then { t with rows := t.rows.map (fun r => mapCell r c f) }
  else t

/-- The masking block of lines 92-101: name, student id, then the phone
column ("Nomor Whatsapp" if present, elif "Nomor Telepon"). -/
def maskTable (t : Table) : Table :=
  let t1 := maskCol t "Nama Lengkap" mask_name
  let t2 := maskCol t1 "NPM" mask_npm
  if hasCol t2 "Nomor Whatsapp" then maskCol t2 "Nomor Whatsapp" mask_phone
  else maskCol t2 "Nomor Telepon" mask_phone

-- ------------------------------------------------------------------
-- Filter application (source lines 107-142)
-- ------------------------------------------------------------------

/-- `df_filtered["Fakultas"].isin(fakultas)` for one row; pandas `isin`
matches `NaN` against `NaN` in the selection list, as list membership on
`Value` does. -/
def rowFakOk (fs : List Value) (r : Row) : Bool :=
  fs.contains (getCell r "Fakultas")

/-- `df_filtered["Semester"].isin(semester)` for one row. -/
def rowSemOk (ss : List Value) (r : Row) : Bool :=
  ss.contains (getCell r "Semester")

/-- `(df_filtered["IPK"] >= ipk_min) & (df_filtered["IPK"] <= ipk_max)` for
one row: a non-numeric cell (in particular `NaN`) fails both comparisons. -/
def rowIpkOk (lo hi : Rat) (r : Row) : Bool :=
  match getCell r "IPK" with
  | Value.num q => decide (lo ≤ q) && decide (q ≤ hi)
  | _ => false

/-- Line 137-138: `if fakultas_options: df_filtered = df_filtered[...isin(fakultas)]`.
`base` is the table the option list was computed from (`df`), `cur` the
table being filtered (`df_filtered`). -/
def fakFilter (base cur : Table) (fs : List Value) : Table :=
  if optionsOf base "Fakultas" = [] then cur
  else { cur with rows := cur.rows.filter (rowFakOk fs) }

/-- Line 139-140, the semester dimension. -/
def semFilter (base cur : Table) (ss : List Value) : Table :=
  if optionsOf base "Semester" = [] then cur
  else { cur with rows := cur.rows.filter (rowSemOk ss) }

/-- Line 141-142: `if ipk_min is not None: ...` — the GPA dimension runs
only when the sidebar produced slider bounds (the `IPK` column existed). -/
def ipkFilter (cur : Table) (ir : Option (Rat × Rat)) : Table :=
  match ir with
  | none => cur
  | some (lo, hi) => { cur with rows := cur.rows.filter (rowIpkOk lo hi) }

/-- Lines 136-142: `df_filtered = df.copy()` then the three conditional
dimensions, whose faculty/semester gates read the option lists of the
input table. -/
def applyFilters (t : Table) (fs ss : List Value) (ir : Option (Rat × Rat)) :
    Table :=
  ipkFilter (semFilter t (fakFilter t t fs) ss) ir

/-- `df_filtered`: the masked base table run through the sidebar filters.
This single table is what the table view (line 152) displays and the CSV
export (line 157) serialises. -/
def dfFiltered (t : Table) (fs ss : List Value) (ir : Option (Rat × Rat)) :
    Table :=
  applyFilters (maskTable t) fs ss ir

/-- Smallest element of a rational list (`df[c].min()` over the numeric
cells; junk `0` on an empty list, which pandas renders as `NaN`). -/
def ratMin : List Rat → Rat
  | [] => 0
  | x :: xs => xs.foldl min x

/-- Largest element, as `df[c].max()`. -/
def ratMax : List Rat → Rat
  | [] => 0
  | x :: xs => xs.foldl max x

/-- The numeric cells of a column (pandas `min`/`max` skip `NaN`). -/
def colNums (t : Table) (c : String) : List Rat :=
  (colValues t c).filterMap (fun v =>
    match v with
    | Value.num q => some q
    | _ => none)

/-- Lines 123-133: the GPA slider exists only when the `IPK` column does,
and then defaults to the full `(min, max)` range of the column. -/
def ipkSliderRange (t : Table) : Option (Rat × Rat) :=
  if hasCol t "IPK" then some (ratMin (colNums t "IPK"), ratMax (colNums t "IPK"))
  else none

-- ------------------------------------------------------------------
-- Value counts and the interpretation helper (source lines 25-43)
-- ------------------------------------------------------------------

/-- Insert a `(value, count)` pair into a list kept in descending count
order. -/
def insertDesc (p : Value × Nat) : List (Value × Nat) → List (Value × Nat)
  | [] => [p]
  | q :: qs => if q.2 ≤ p.2 then p :: q :: qs else q :: insertDesc p qs

/-- Sort `(value, count)` pairs by descending count, as `value_counts`
returns them. -/
def sortCountsDesc : List (Value × Nat) → List (Value × Nat)
  | [] => []
  | p :: ps => insertDesc p (sortCountsDesc ps)

/-- One `(value, occurrence count)` pair per distinct non-null value. -/
def countsOf (vs : List Value) : List (Value × Nat) :=
  (nonNull vs).dedup.map (fun v => (v, (nonNull vs).count v))

/-- `series.value_counts(dropna=True)`: distinct non-null values with their
counts, most frequent first. -/
def valueCounts (vs : List Value) : List (Value × Nat) :=
  sortCountsDesc (countsOf vs)

/-- `series.value_counts(normalize=True).mul(100)` (lines 287-292, 318,
384, 408, 432): each count divided by the total non-null count, times
100. -/
def pctCounts (vs : List Value) : List (Value × Rat) :=
  (valueCounts vs).map
    (fun p => (p.1, (p.2 : Rat) / ((nonNull vs).length : Rat) * 100))

/-- `interpret_top_category(series)` (lines 28-43), with the caption string
abstracted to the data it interpolates: the top label, its count, and the
total respondent count.  `none` models both the `series is None` defensive
branch and the two `return None` exits. -/
def interpret_top_category (s : Option (List Value)) :
    Option (Value × Nat × Nat) :=
  match s with
  | none => none
  | some vs =>
    if vs.isEmpty then none
    else if ((valueCounts vs).map Prod.snd).sum = 0 then none
    else
      match valueCounts vs with
      | [] => none
      | p :: _ => some (p.1, p.2, ((valueCounts vs).map Prod.snd).sum)

-- ------------------------------------------------------------------
-- Report-section inputs (source lines 281-449)
-- ------------------------------------------------------------------

/-- Python `s.strip()`: drop leading and trailing whitespace. -/
def stripL (s : List Char) : List Char :=
  ((s.dropWhile Char.isWhitespace).reverse.dropWhile Char.isWhitespace).reverse

/-- `df["Mengikuti kegiatan"].str.lower().str.strip() == "ya"` for one row:
a non-string cell (`NaN` under `.str`) compares unequal. -/
def isYa (v : Value) : Bool :=
  match v with
  | Value.str s => stripL (s.data.map Char.toLower) == ['y', 'a']
  | _ => false

/-- The `df_ya` / `df_ikut` sub-population: rows whose participation answer
normalises to `"ya"`. -/
def subYa (t : Table) : Table :=
  { t with rows := t.rows.filter (fun r => isYa (getCell r "Mengikuti kegiatan")) }

/-- Input rows of the "Ketepatan Mengerjakan Tugas" section (lines 283-285):
the participating sub-population of `df_filtered`. -/
def ketepatanInput (t : Table) (fs ss : List Value) (ir : Option (Rat × Rat)) :
    Table :=
  subYa (dfFiltered t fs ss ir)

/-- Input rows of the "Pengaruh Kegiatan" section (lines 314-316): also the
participating sub-population of `df_filtered`. -/
def pengaruhInput (t : Table) (fs ss : List Value) (ir : Option (Rat × Rat)) :
    Table :=
  subYa (dfFiltered t fs ss ir)

/-- Input rows of the "Distribusi Menunda Tugas" section (lines 380-381):
the script takes the sub-population of the unfiltered masked base table
`df`, not of `df_filtered`. -/
def menundaInput (t : Table) : Table :=
  subYa (maskTable t)

/-- Input rows of the "Kesungguhan" section (lines 404-405): again the
unfiltered masked base table. -/
def kesungguhanInput (t : Table) : Table :=
  subYa (maskTable t)

/-- Input rows of the "Dampak ... di bawah tekanan" section (lines 428-429):
again the unfiltered masked base table. -/
def dampakInput (t : Table) : Table :=
  subYa (maskTable t)

-- ------------------------------------------------------------------
-- Auxiliary predicates and concrete tables used by the claims
-- ------------------------------------------------------------------

/-- The filter columns that exist are fully populated: no `NaN` faculty or
semester, and every GPA cell numeric. -/
def FilterColsClean (t : Table) : Prop :=
  (hasCol t "Fakultas" = true → ∀ r ∈ t.rows, getCell r "Fakultas" ≠ Value.null) ∧
  (hasCol t "Semester" = true → ∀ r ∈ t.rows, getCell r "Semester" ≠ Value.null) ∧
  (hasCol t "IPK" = true → ∀ r ∈ t.rows, ∃ q, getCell r "IPK" = Value.num q)

/-- The scenario table of the spec: faculties Engineering/Law, semesters
3/5, GPAs 2.8/3.5/3.9. -/
def rEng28 : Row :=
  [("Fakultas", Value.str "Engineering"), ("Semester", Value.num 3),
    ("IPK", Value.num (mkRat 28 10))]

def rEng35 : Row :=
  [("Fakultas", Value.str "Engineering"), ("Semester", Value.num 5),
    ("IPK", Value.num (mkRat 35 10))]

def rLaw39 : Row :=
  [("Fakultas", Value.str "Law"), ("Semester", Value.num 3),
    ("IPK", Value.num (mkRat 39 10))]

def scnTable : Table :=
  { cols := ["Fakultas", "Semester", "IPK"], rows := [rEng28, rEng35, rLaw39] }

/-- A table whose second row has a missing faculty. -/
def nullFakT : Table :=
  { cols := ["Fakultas"],
    rows := [[("Fakultas", Value.str "A")], [("Fakultas", Value.null)]] }

/-- Two participating respondents in different faculties, for the
report-section claims. -/
def rowA2 : Row :=
  [("Fakultas", Value.str "A"), ("Mengikuti kegiatan", Value.str "Ya"),
    ("Jumlah menunda mengerjakan tugas mata kuliah_category", Value.str "X")]

def rowB2 : Row :=
  [("Fakultas", Value.str "B"), ("Mengikuti kegiatan", Value.str "Ya"),
    ("Jumlah menunda mengerjakan tugas mata kuliah_category", Value.str "Y")]

def exC2T : Table :=
  { cols := ["Fakultas", "Mengikuti kegiatan",
      "Jumlah menunda mengerjakan tugas mata kuliah_category"],
    rows := [rowA2, rowB2] }

/-- A one-row table with identity columns, for the masking pipeline. -/
def exC1T : Table :=
  { cols := ["Nama Lengkap", "NPM"],
    rows := [[("Nama Lengkap", Value.str "Budi Ali"),
      ("NPM", Value.str "2021123")]] }

-- ------------------------------------------------------------------
-- Basic lemmas about the filter pipeline
-- ------------------------------------------------------------------

theorem Table.ext' {a b : Table} (h1 : a.cols = b.cols) (h2 : a.rows = b.rows) :
    a = b := by
  cases a
  cases b
  simp_all

theorem cols_fakFilter (base cur : Table) (fs : List Value) :
    (fakFilter base cur fs).cols = cur.cols := by
  unfold fakFilter
  split <;> rfl

theorem cols_semFilter (base cur : Table) (ss : List Value) :
    (semFilter base cur ss).cols = cur.cols := by
  unfold semFilter
  split <;> rfl

theorem cols_ipkFilter (cur : Table) (ir : Option (Rat × Rat)) :
    (ipkFilter cur ir).cols = cur.cols := by
  unfold ipkFilter
  cases ir with
  | none => rfl
  | some p => rfl

theorem cols_applyFilters (t : Table) (fs ss : List Value)
    (ir : Option (Rat × Rat)) : (applyFilters t fs ss ir).cols = t.cols := by
  unfold applyFilters
  rw [cols_ipkFilter, cols_semFilter, cols_fakFilter]

theorem mem_fakFilter {base cur : Table} {fs : List Value} {r : Row} :
    r ∈ (fakFilter base cur fs).rows ↔
      r ∈ cur.rows ∧ (optionsOf base "Fakultas" = [] ∨ rowFakOk fs r = true) := by
  unfold fakFilter
  by_cases h : optionsOf base "Fakultas" = [] <;> simp [h, List.mem_filter]

theorem mem_semFilter {base cur : Table} {ss : List Value} {r : Row} :
    r ∈ (semFilter base cur ss).rows ↔
      r ∈ cur.rows ∧ (optionsOf base "Semester" = [] ∨ rowSemOk ss r = true) := by
  unfold semFilter
  by_cases h : optionsOf base "Semester" = [] <;> simp [h, List.mem_filter]

theorem mem_ipkFilter {cur : Table} {ir : Option (Rat × Rat)} {r : Row} :
    r ∈ (ipkFilter cur ir).rows ↔
      r ∈ cur.rows ∧ ∀ lo hi, ir = some (lo, hi) → rowIpkOk lo hi r = true := by
  unfold ipkFilter
  cases ir with
  | none => simp
  | some p => cases p with
    | mk lo hi => simp [List.mem_filter]

theorem mem_applyFilters {t : Table} {fs ss : List Value}
    {ir : Option (Rat × Rat)} {r : Row} :
    r ∈ (applyFilters t fs ss ir).rows ↔
      r ∈ t.rows ∧
      (optionsOf t "Fakultas" = [] ∨ rowFakOk fs r = true) ∧
      (optionsOf t "Semester" = [] ∨ rowSemOk ss r = true) ∧
      (∀ lo hi, ir = some (lo, hi) → rowIpkOk lo hi r = true) := by
  unfold applyFilters
  rw [mem_ipkFilter, mem_semFilter, mem_fakFilter]
  tauto

theorem mem_rows_of_mem_applyFilters {t : Table} {fs ss : List Value}
    {ir : Option (Rat × Rat)} {r : Row}
    (h : r ∈ (applyFilters t fs ss ir).rows) : r ∈ t.rows :=
  (mem_applyFilters.mp h).1

theorem mem_optionsOf {t : Table} {c : String} {v : Value} :
    v ∈ optionsOf t c ↔
      hasCol t c = true ∧ v ≠ Value.null ∧ v ∈ colValues t c := by
  unfold optionsOf
  by_cases h : hasCol t c <;>
    simp [h, nonNull, List.mem_dedup, List.mem_filter, bne_iff_ne, and_comm]

theorem optionsOf_mono {t sub : Table} (hc : sub.cols = t.cols)
    (hr : ∀ r ∈ sub.rows, r ∈ t.rows) (c : String) :
    ∀ v ∈ optionsOf sub c, v ∈ optionsOf t c := by
  intro v hv
  rw [mem_optionsOf] at hv ⊢
  obtain ⟨h1, h2, h3⟩ := hv
  refine ⟨by rwa [hasCol, hc] at h1, h2, ?_⟩
  obtain ⟨r, hrm, hrv⟩ := List.mem_map.mp h3
  exact List.mem_map.mpr ⟨r, hr r hrm, hrv⟩

theorem optionsOf_eq_nil_of_not_hasCol {t : Table} {c : String}
    (h : hasCol t c = false) : optionsOf t c = [] := by
  unfold optionsOf
  simp [h]

theorem rowIpkOk_iff {lo hi : Rat} {r : Row} :
    rowIpkOk lo hi r = true ↔
      ∃ q, getCell r "IPK" = Value.num q ∧ lo ≤ q ∧ q ≤ hi := by
  unfold rowIpkOk
  cases h : getCell r "IPK" <;> simp [h]

theorem foldl_min_le {xs : List Rat} :
    ∀ a : Rat, xs.foldl min a ≤ a ∧ ∀ q ∈ xs, xs.foldl min a ≤ q := by
  induction xs with
  | nil => intro a; simp
  | cons x xs ih =>
    intro a
    have h := ih (min a x)
    refine ⟨le_trans h.1 (min_le_left a x), ?_⟩
    intro q hq
    rcases List.mem_cons.mp hq with rfl | h1
    · exact le_trans h.1 (min_le_right a q)
    · exact h.2 q h1

theorem le_foldl_max {xs : List Rat} :
    ∀ a : Rat, a ≤ xs.foldl max a ∧ ∀ q ∈ xs, q ≤ xs.foldl max a := by
  induction xs with
  | nil => intro a; simp
  | cons x xs ih =>
    intro a
    have h := ih (max a x)
    refine ⟨le_trans (le_max_left a x) h.1, ?_⟩
    intro q hq
    rcases List.mem_cons.mp hq with rfl | h1
    · exact le_trans (le_max_right a q) h.1
    · exact h.2 q h1

theorem ratMin_le_of_mem {l : List Rat} {q : Rat} (h : q ∈ l) : ratMin l ≤ q := by
  cases l with
  | nil => cases h
  | cons x xs =>
    rcases List.mem_cons.mp h with h1 | h1
    · exact h1 ▸ (foldl_min_le x).1
    · exact (foldl_min_le x).2 q h1

theorem le_ratMax_of_mem {l : List Rat} {q : Rat} (h : q ∈ l) : q ≤ ratMax l := by
  cases l with
  | nil => cases h
  | cons x xs =>
    rcases List.mem_cons.mp h with h1 | h1
    · exact h1 ▸ (le_foldl_max x).1
    · exact (le_foldl_max x).2 q h1

theorem mem_colNums_of_getCell {t : Table} {c : String} {r : Row} {q : Rat}
    (hr : r ∈ t.rows) (hq : getCell r c = Value.num q) : q ∈ colNums t c := by
  unfold colNums
  refine List.mem_filterMap.mpr ⟨Value.num q, ?_, rfl⟩
  exact List.mem_map.mpr ⟨r, hr, hq⟩

-- Idempotence machinery: every surviving row passes the active dimensions.

theorem fak_pass_of_mem {t : Table} {fs ss : List Value}
    {ir : Option (Rat × Rat)} {r : Row}
    (h : r ∈ (applyFilters t fs ss ir).rows)
    (hne : optionsOf t "Fakultas" ≠ []) : rowFakOk fs r = true :=
  ((mem_applyFilters.mp h).2.1).resolve_left hne

theorem sem_pass_of_mem {t : Table} {fs ss : List Value}
    {ir : Option (Rat × Rat)} {r : Row}
    (h : r ∈ (applyFilters t fs ss ir).rows)
    (hne : optionsOf t "Semester" ≠ []) : rowSemOk ss r = true :=
  ((mem_applyFilters.mp h).2.2.1).resolve_left hne

theorem ipk_pass_of_mem {t : Table} {fs ss : List Value} {lo hi : Rat} {r : Row}
    (h : r ∈ (applyFilters t fs ss (some (lo, hi))).rows) :
    rowIpkOk lo hi r = true :=
  (mem_applyFilters.mp h).2.2.2 lo hi rfl

theorem optionsOf_applyFilters_sub (t : Table) (fs ss : List Value)
    (ir : Option (Rat × Rat)) (c : String) :
    ∀ v ∈ optionsOf (applyFilters t fs ss ir) c, v ∈ optionsOf t c :=
  optionsOf_mono (cols_applyFilters t fs ss ir)
    (fun _ hr => mem_rows_of_mem_applyFilters hr) c

theorem optionsOf_applyFilters_nil {t : Table} {fs ss : List Value}
    {ir : Option (Rat × Rat)} {c : String}
    (h : optionsOf t c = []) : optionsOf (applyFilters t fs ss ir) c = [] := by
  rcases hv : optionsOf (applyFilters t fs ss ir) c with _ | ⟨v, vs⟩
  · rfl
  · have : v ∈ optionsOf t c :=
      optionsOf_applyFilters_sub t fs ss ir c v (by rw [hv]; exact List.mem_cons_self v vs)
    rw [h] at this
    cases this

/-- **C7.** `apply_filters` is idempotent: running the sidebar filter block a
second time, with the same selections, over its own output changes
nothing. -/
theorem applyFilters_idempotent (t : Table) (fs ss : List Value)
    (ir : Option (Rat × Rat)) :
    applyFilters (applyFilters t fs ss ir) fs ss ir = applyFilters t fs ss ir := by
  set T := applyFilters t fs ss ir with hT
  have h1 : fakFilter T T fs = T := by
    unfold fakFilter
    by_cases h : optionsOf T "Fakultas" = []
    · simp [h]
    · have hbase : optionsOf t "Fakultas" ≠ [] := by
        intro h0
        exact h (optionsOf_applyFilters_nil h0)
      have hall : T.rows.filter (rowFakOk fs) = T.rows :=
        List.filter_eq_self.mpr (fun r hr => fak_pass_of_mem hr hbase)
      simp [h, hall]
  have h2 : semFilter T T ss = T := by
    unfold semFilter
    by_cases h : optionsOf T "Semester" = []
    · simp [h]
    · have hbase : optionsOf t "Semester" ≠ [] := by
        intro h0
        exact h (optionsOf_applyFilters_nil h0)
      have hall : T.rows.filter (rowSemOk ss) = T.rows :=
        List.filter_eq_self.mpr (fun r hr => sem_pass_of_mem hr hbase)
      simp [h, hall]
  have h3 : ipkFilter T ir = T := by
    unfold ipkFilter
    cases ir with
    | none => rfl
    | some p =>
      cases p with
      | mk lo hi =>
        have hall : T.rows.filter (rowIpkOk lo hi) = T.rows :=
          List.filter_eq_self.mpr (fun r hr => ipk_pass_of_mem hr)
        simp [hall]
  show ipkFilter (semFilter T (fakFilter T T fs) ss) ir = T
  rw [h1, h2, h3]

/-- **C6.** The three filter dimensions combine by logical AND, with the GPA
bounds inclusive: when the faculty and semester dimensions are active
(their option lists are non-empty) a row survives iff its faculty is in the
selected set, its semester is in the selected set, and its GPA is a number
with `lo ≤ GPA ≤ hi`. -/
theorem applyFilters_and_semantics (t : Table) (fs ss : List Value)
    (lo hi : Rat) (hf : optionsOf t "Fakultas" ≠ [])
    (hs : optionsOf t "Semester" ≠ []) (r : Row) :
    r ∈ (applyFilters t fs ss (some (lo, hi))).rows ↔
      r ∈ t.rows ∧
      fs.contains (getCell r "Fakultas") = true ∧
      ss.contains (getCell r "Semester") = true ∧
      ∃ q, getCell r "IPK" = Value.num q ∧ lo ≤ q ∧ q ≤ hi := by
  rw [mem_applyFilters]
  constructor
  · rintro ⟨hm, h1, h2, h3⟩
    exact ⟨hm, h1.resolve_left hf, h2.resolve_left hs,
      rowIpkOk_iff.mp (h3 lo hi rfl)⟩
  · rintro ⟨hm, h1, h2, h3⟩
    refine ⟨hm, Or.inr h1, Or.inr h2, ?_⟩
    rintro lo' hi' heq
    cases heq
    exact rowIpkOk_iff.mpr h3

/-- **C6 witness.** On the spec's scenario table (Engineering/Law, semesters
3/5, GPAs 2.8/3.5/3.9), selecting Engineering, semesters 3 and 5 and GPA
range [3, 4] keeps the 3.5-GPA Engineering row. -/
theorem applyFilters_and_semantics_witness :
    rEng35 ∈ (applyFilters scnTable [Value.str "Engineering"]
      [Value.num 3, Value.num 5] (some (3, 4))).rows :=
  (applyFilters_and_semantics scnTable [Value.str "Engineering"]
    [Value.num 3, Value.num 5] 3 4 (by decide) (by decide) rEng35).mpr
    ⟨by decide, by decide, by decide, mkRat 35 10, by decide, by decide, by decide⟩

/-- **C4 counterexample.** With a row whose `Fakultas` cell is missing, the
default full-domain selection (all available faculties, all available
semesters, the full slider range) does NOT leave every row in place: the
null-faculty row is dropped. -/
theorem filters_default_not_noop :
    applyFilters nullFakT (optionsOf nullFakT "Fakultas")
      (optionsOf nullFakT "Semester") (ipkSliderRange nullFakT) ≠ nullFakT := by
  decide

/-- **C4 (amended).** A filter dimension whose column is absent is a no-op
(the selection is immaterial, and with all three columns absent the whole
block is the identity); the default full-domain selection leaves every row
in place provided the filter columns that do exist contain no missing
values (and the GPA column is numeric). -/
theorem filters_noop_cases (t : Table) :
    (∀ fs fs' ss ir, hasCol t "Fakultas" = false →
      applyFilters t fs ss ir = applyFilters t fs' ss ir) ∧
    (∀ fs ss ss' ir, hasCol t "Semester" = false →
      applyFilters t fs ss ir = applyFilters t fs ss' ir) ∧
    (hasCol t "Fakultas" = false → hasCol t "Semester" = false →
      ∀ fs ss, applyFilters t fs ss none = t) ∧
    (FilterColsClean t →
      applyFilters t (optionsOf t "Fakultas") (optionsOf t "Semester")
        (ipkSliderRange t) = t) := by
  refine ⟨?_, ?_, ?_, ?_⟩
  · intro fs fs' ss ir h
    unfold applyFilters fakFilter
    rw [optionsOf_eq_nil_of_not_hasCol h]
    simp
  · intro fs ss ss' ir h
    unfold applyFilters semFilter
    rw [optionsOf_eq_nil_of_not_hasCol h]
    simp
  · intro hf hs fs ss
    unfold applyFilters ipkFilter semFilter fakFilter
    rw [optionsOf_eq_nil_of_not_hasCol hf, optionsOf_eq_nil_of_not_hasCol hs]
    simp
  · intro hclean
    obtain ⟨hcf, hcs, hci⟩ := hclean
    have hfak : fakFilter t t (optionsOf t "Fakultas") = t := by
      unfold fakFilter
      by_cases h : optionsOf t "Fakultas" = []
      · simp [h]
      · have hcol : hasCol t "Fakultas" = true := by
          by_contra hc
          exact h (optionsOf_eq_nil_of_not_hasCol (Bool.eq_false_iff.mpr hc))
        have hall : t.rows.filter (rowFakOk (optionsOf t "Fakultas")) = t.rows := by
          refine List.filter_eq_self.mpr (fun r hr => ?_)
          unfold rowFakOk
          exact List.elem_eq_true_of_mem (mem_optionsOf.mpr
            ⟨hcol, hcf hcol r hr, List.mem_map.mpr ⟨r, hr, rfl⟩⟩)
        simp [h, hall]
    have hsem : semFilter t t (optionsOf t "Semester") = t := by
      unfold semFilter
      by_cases h : optionsOf t "Semester" = []
      · simp [h]
      · have hcol : hasCol t "Semester" = true := by
          by_contra hc
          exact h (optionsOf_eq_nil_of_not_hasCol (Bool.eq_false_iff.mpr hc))
        have hall : t.rows.filter (rowSemOk (optionsOf t "Semester")) = t.rows := by
          refine List.filter_eq_self.mpr (fun r hr => ?_)
          unfold rowSemOk
          exact List.elem_eq_true_of_mem (mem_optionsOf.mpr
            ⟨hcol, hcs hcol r hr, List.mem_map.mpr ⟨r, hr, rfl⟩⟩)
        simp [h, hall]
    have hipk : ipkFilter t (ipkSliderRange t) = t := by
      unfold ipkFilter ipkSliderRange
      by_cases h : hasCol t "IPK" = true
      · have hall : t.rows.filter
            (rowIpkOk (ratMin (colNums t "IPK")) (ratMax (colNums t "IPK"))) =
            t.rows := by
          refine List.filter_eq_self.mpr (fun r hr => ?_)
          obtain ⟨q, hq⟩ := hci h r hr
          refine rowIpkOk_iff.mpr ⟨q, hq, ?_, ?_⟩
          · exact ratMin_le_of_mem (mem_colNums_of_getCell hr hq)
          · exact le_ratMax_of_mem (mem_colNums_of_getCell hr hq)
        simp [h, hall]
      · simp [h]
    show ipkFilter (semFilter t (fakFilter t t (optionsOf t "Fakultas"))
      (optionsOf t "Semester")) (ipkSliderRange t) = t
    rw [hfak, hsem, hipk]

/-- **C4 (amended) witness.** On the scenario table (fully populated filter
columns) the default selection is the identity. -/
theorem filters_noop_cases_witness :
    applyFilters scnTable (optionsOf scnTable "Fakultas")
      (optionsOf scnTable "Semester") (ipkSliderRange scnTable) = scnTable :=
  (filters_noop_cases scnTable).2.2.2
    ⟨fun _ r hr => by
      fin_cases hr <;> decide,
     fun _ r hr => by
      fin_cases hr <;> decide,
     fun _ r hr => by
      fin_cases hr <;>
        first
        | exact ⟨mkRat 28 10, by decide⟩
        | exact ⟨mkRat 35 10, by decide⟩
        | exact ⟨mkRat 39 10, by decide⟩⟩

-- ------------------------------------------------------------------
-- Value-count lemmas (for C8 and C10)
-- ------------------------------------------------------------------

theorem insertDesc_perm (p : Value × Nat) (l : List (Value × Nat)) :
    (insertDesc p l).Perm (p :: l) := by
  induction l with
  | nil => exact List.Perm.refl _
  | cons q qs ih =>
    unfold insertDesc
    by_cases h : q.2 ≤ p.2
    · simp [h]
    · simp only [h, if_false]
      exact List.Perm.trans (List.Perm.cons q ih) (List.Perm.swap p q qs)

theorem sortCountsDesc_perm (l : List (Value × Nat)) :
    (sortCountsDesc l).Perm l := by
  induction l with
  | nil => exact List.Perm.refl _
  | cons p ps ih =>
    exact List.Perm.trans (insertDesc_perm p (sortCountsDesc ps))
      (List.Perm.cons p ih)

theorem mem_sortCountsDesc {p : Value × Nat} {l : List (Value × Nat)} :
    p ∈ sortCountsDesc l ↔ p ∈ l :=
  (sortCountsDesc_perm l).mem_iff

theorem pairwise_insertDesc {p : Value × Nat} {l : List (Value × Nat)}
    (h : l.Pairwise (fun a b => b.2 ≤ a.2)) :
    (insertDesc p l).Pairwise (fun a b => b.2 ≤ a.2) := by
  induction l with
  | nil => simp [insertDesc]
  | cons q qs ih =>
    unfold insertDesc
    by_cases hq : q.2 ≤ p.2
    · simp only [hq, if_true]
      refine List.Pairwise.cons ?_ h
      intro b hb
      rcases List.mem_cons.mp hb with rfl | hb
      · exact hq
      · exact le_trans (List.rel_of_pairwise_cons h hb) hq
    · simp only [hq, if_false]
      have hqs := List.Pairwise.of_cons h
      refine List.Pairwise.cons ?_ (ih hqs)
      intro b hb
      rcases List.mem_cons.mp ((insertDesc_perm p qs).mem_iff.mp hb) with rfl | hb
      · exact le_of_lt (lt_of_not_le hq)
      · exact List.rel_of_pairwise_cons h hb

theorem pairwise_sortCountsDesc (l : List (Value × Nat)) :
    (sortCountsDesc l).Pairwise (fun a b => b.2 ≤ a.2) := by
  induction l with
  | nil => simp [sortCountsDesc]
  | cons p ps ih => exact pairwise_insertDesc ih

theorem mem_countsOf {vs : List Value} {p : Value × Nat} :
    p ∈ countsOf vs ↔
      p.1 ∈ (nonNull vs).dedup ∧ p.2 = (nonNull vs).count p.1 := by
  unfold countsOf
  constructor
  · intro h
    obtain ⟨v, hv, hp⟩ := List.mem_map.mp h
    cases hp
    exact ⟨hv, rfl⟩
  · intro ⟨h1, h2⟩
    refine List.mem_map.mpr ⟨p.1, h1, ?_⟩
    cases p
    simp_all

theorem sum_counts_eq_length (vs : List Value) :
    ((valueCounts vs).map Prod.snd).sum = (nonNull vs).length := by
  have hperm : ((valueCounts vs).map Prod.snd).Perm ((countsOf vs).map Prod.snd) :=
    (sortCountsDesc_perm (countsOf vs)).map Prod.snd
  rw [hperm.sum_eq]
  unfold countsOf
  rw [List.map_map]
  exact List.sum_map_count_dedup_eq_length (nonNull vs)

theorem nonNull_eq_self {vs : List Value} (h : ∀ v ∈ vs, v ≠ Value.null) :
    nonNull vs = vs :=
  List.filter_eq_self.mpr (fun v hv => bne_iff_ne.mpr (h v hv))

theorem sum_map_pct (cs : List Nat) (L : Rat) :
    (cs.map (fun c : Nat => (c : Rat) / L * 100)).sum = (cs.sum : Rat) / L * 100 := by
  induction cs with
  | nil => simp
  | cons c cs ih =>
    simp only [List.map_cons, List.sum_cons, ih]
    push_cast
    ring

/-- **C8.** In percentage mode (`value_counts(normalize=True).mul(100)`),
over a non-empty column in which no value is dropped for nullity, the
percentages of all distinct categories sum to exactly 100. -/
theorem pctCounts_sum_100 (vs : List Value) (hne : vs ≠ [])
    (hnn : ∀ v ∈ vs, v ≠ Value.null) :
    ((pctCounts vs).map Prod.snd).sum = 100 := by
  have hnil : nonNull vs ≠ [] := by
    rw [nonNull_eq_self hnn]
    exact hne
  have hL : (((nonNull vs).length : Nat) : Rat) ≠ 0 :=
    Nat.cast_ne_zero.mpr (fun h0 => hnil (List.length_eq_zero.mp h0))
  unfold pctCounts
  have h1 : (((valueCounts vs).map (fun p : Value × Nat =>
      (p.1, (p.2 : Rat) / ((nonNull vs).length : Rat) * 100))).map Prod.snd) =
      (((valueCounts vs).map Prod.snd).map
        (fun c : Nat => (c : Rat) / ((nonNull vs).length : Rat) * 100)) := by
    rw [List.map_map, List.map_map]
    rfl
  rw [h1, sum_map_pct, sum_counts_eq_length, div_self hL, one_mul]

/-- **C8 witness.** The spec's participation scenario `["Ya","Ya","Tidak"]`:
the percentage distribution sums to 100. -/
theorem pctCounts_sum_100_witness :
    ((pctCounts [Value.str "Ya", Value.str "Ya", Value.str "Tidak"]).map
      Prod.snd).sum = 100 :=
  pctCounts_sum_100 [Value.str "Ya", Value.str "Ya", Value.str "Tidak"]
    (by decide) (by decide)

-- ------------------------------------------------------------------
-- The interpretation helper (C10)
-- ------------------------------------------------------------------

theorem countsOf_nil_iff {vs : List Value} : countsOf vs = [] ↔ nonNull vs = [] := by
  unfold countsOf
  rw [List.map_eq_nil_iff, List.dedup_eq_nil]

theorem valueCounts_nil_iff {vs : List Value} :
    valueCounts vs = [] ↔ nonNull vs = [] := by
  rw [← countsOf_nil_iff]
  constructor
  · intro h
    have hl := (sortCountsDesc_perm (countsOf vs)).length_eq
    rw [show sortCountsDesc (countsOf vs) = valueCounts vs from rfl, h] at hl
    exact List.length_eq_zero.mp hl.symm
  · intro h
    show sortCountsDesc (countsOf vs) = []
    rw [h]
    rfl

theorem valueCounts_head_max {vs : List Value} {p : Value × Nat}
    {rest : List (Value × Nat)} (h : valueCounts vs = p :: rest) :
    p.1 ∈ (nonNull vs).dedup ∧ p.2 = (nonNull vs).count p.1 ∧
      ∀ q ∈ countsOf vs, q.2 ≤ p.2 := by
  have hp : p ∈ countsOf vs := by
    have hm : p ∈ valueCounts vs := by
      rw [h]
      exact List.mem_cons_self p rest
    exact mem_sortCountsDesc.mp hm
  have hmax : ∀ q ∈ countsOf vs, q.2 ≤ p.2 := by
    intro q hq
    have hq2 : q ∈ valueCounts vs := mem_sortCountsDesc.mpr hq
    rw [h] at hq2
    rcases List.mem_cons.mp hq2 with rfl | hq3
    · exact le_refl _
    · have hpw := pairwise_sortCountsDesc (countsOf vs)
      rw [show sortCountsDesc (countsOf vs) = valueCounts vs from rfl, h] at hpw
      exact List.rel_of_pairwise_cons hpw hq3
  obtain ⟨h1, h2⟩ := mem_countsOf.mp hp
  exact ⟨h1, h2, hmax⟩

theorem itc_eval {vs : List Value} {p : Value × Nat} {rest : List (Value × Nat)}
    (hie : vs.isEmpty = false)
    (hsum : ((valueCounts vs).map Prod.snd).sum ≠ 0)
    (hvc : valueCounts vs = p :: rest) :
    interpret_top_category (some vs) =
      some (p.1, p.2, ((valueCounts vs).map Prod.snd).sum) := by
  simp only [interpret_top_category]
  rw [hie]
  rw [if_neg Bool.false_ne_true, if_neg hsum]
  simp only [hvc]

theorem itc_none_iff (s : Option (List Value)) :
    interpret_top_category s = none ↔
      s = none ∨ ∃ vs, s = some vs ∧ nonNull vs = [] := by
  cases s with
  | none => simp [interpret_top_category]
  | some vs =>
    by_cases he : vs = []
    · subst he
      simp [interpret_top_category, nonNull]
    · have hie : vs.isEmpty = false := by
        cases vs
        · exact absurd rfl he
        · rfl
      by_cases h0 : nonNull vs = []
      · have hsum : ((valueCounts vs).map Prod.snd).sum = 0 := by
          rw [sum_counts_eq_length, h0]
          rfl
        simp [interpret_top_category, hie, hsum, h0]
      · have hsum : ((valueCounts vs).map Prod.snd).sum ≠ 0 := by
          rw [sum_counts_eq_length]
          exact fun hh => h0 (List.length_eq_zero.mp hh)
        obtain ⟨p, rest, hpr⟩ :=
          List.exists_cons_of_ne_nil (fun hh => h0 (valueCounts_nil_iff.mp hh))
        rw [itc_eval hie hsum hpr]
        simp [h0]

theorem itc_some_spec {s : Option (List Value)} {lbl : Value} {c total : Nat}
    (h : interpret_top_category s = some (lbl, c, total)) :
    ∃ vs, s = some vs ∧ total = (nonNull vs).length ∧ lbl ≠ Value.null ∧
      c = (nonNull vs).count lbl ∧ ∀ v, (nonNull vs).count v ≤ c := by
  cases s with
  | none => simp [interpret_top_category] at h
  | some vs =>
    refine ⟨vs, rfl, ?_⟩
    by_cases hie : vs.isEmpty = true
    · simp [interpret_top_category, hie] at h
    · have hie' : vs.isEmpty = false := Bool.eq_false_iff.mpr hie
      rcases hvc : valueCounts vs with _ | ⟨p, rest⟩
      · simp [interpret_top_category, hie', hvc] at h
      · by_cases hsum : ((valueCounts vs).map Prod.snd).sum = 0
        · simp [interpret_top_category, hie', hsum] at h
        · rw [itc_eval hie' hsum hvc] at h
          simp only [Option.some.injEq, Prod.mk.injEq] at h
          obtain ⟨hl, hc, ht⟩ := h
          obtain ⟨hmem, hcnt, hmax⟩ := valueCounts_head_max hvc
          have hlm : lbl ∈ nonNull vs := by
            rw [← hl]
            exact List.mem_dedup.mp hmem
          have hlnn : lbl ≠ Value.null := by
            have hf := List.mem_filter.mp hlm
            exact bne_iff_ne.mp hf.2
          refine ⟨?_, hlnn, ?_, ?_⟩
          · rw [← ht, sum_counts_eq_length]
          · rw [← hc, ← hl]
            exact hcnt
          · intro v
            by_cases hv : v ∈ nonNull vs
            · have hq : (v, (nonNull vs).count v) ∈ countsOf vs :=
                mem_countsOf.mpr ⟨List.mem_dedup.mpr hv, rfl⟩
              have hle := hmax _ hq
              rw [← hc]
              exact hle
            · rw [List.count_eq_zero.mpr hv]
              exact Nat.zero_le c

/-- **C10.** `interpret_top_category` is total (never raises); it yields no
caption exactly when the series is missing, empty, or all-null; otherwise
the reported total is the non-null count and the named category is a most
frequent non-null value, reported with its own count. -/
theorem interpret_top_category_spec (s : Option (List Value)) :
    (interpret_top_category s = none ↔
      s = none ∨ ∃ vs, s = some vs ∧ nonNull vs = []) ∧
    ∀ lbl c total, interpret_top_category s = some (lbl, c, total) →
      ∃ vs, s = some vs ∧ total = (nonNull vs).length ∧ lbl ≠ Value.null ∧
        c = (nonNull vs).count lbl ∧ ∀ v, (nonNull vs).count v ≤ c :=
  ⟨itc_none_iff s, fun _ _ _ h => itc_some_spec h⟩

/-- **C10 witness.** On the series `["Ya","Ya","Tidak"]` the helper reports
top label `"Ya"` with 2 respondents out of 3. -/
theorem interpret_top_category_spec_witness :
    ∃ vs, (some [Value.str "Ya", Value.str "Ya", Value.str "Tidak"] :
        Option (List Value)) = some vs ∧
      3 = (nonNull vs).length ∧ Value.str "Ya" ≠ Value.null ∧
      2 = (nonNull vs).count (Value.str "Ya") ∧
      ∀ v, (nonNull vs).count v ≤ 2 :=
  (interpret_top_category_spec
    (some [Value.str "Ya", Value.str "Ya", Value.str "Tidak"])).2
    (Value.str "Ya") 2 3 (by decide)

-- ------------------------------------------------------------------
-- Report-section inputs (C2) and masking on nulls (C3), mask_npm (C5)
-- ------------------------------------------------------------------

theorem mem_subYa {t : Table} {r : Row} (h : r ∈ (subYa t).rows) : r ∈ t.rows :=
  List.mem_of_mem_filter h

/-- **C2 counterexample.** In a two-row table where both respondents
participate but only faculty "A" is selected, the excluded faculty-"B"
row still feeds the "menunda tugas" section: it is in that section's
sub-population and its category "Y" appears in the section's
distribution, even though the row is not in `df_filtered`. -/
theorem menunda_counts_excluded_row :
    rowB2 ∈ (menundaInput exC2T).rows ∧
    rowB2 ∉ (dfFiltered exC2T [Value.str "A"] [] none).rows ∧
    (Value.str "Y", 1) ∈ valueCounts (colValues (menundaInput exC2T)
      "Jumlah menunda mengerjakan tugas mata kuliah_category") := by
  decide

/-- **C2 (amended).** The "ketepatan" and "pengaruh" sections summarize the
participating sub-population of `df_filtered`, so they only ever see rows
surviving the active filters; the "menunda", "kesungguhan" and "dampak"
sections instead summarize the participating sub-population of the
unfiltered masked base table `df`, so their inputs are only guaranteed to
be base-table rows (and can include rows the active filters excluded). -/
theorem section_inputs_spec (t : Table) (fs ss : List Value)
    (ir : Option (Rat × Rat)) :
    (∀ r ∈ (ketepatanInput t fs ss ir).rows, r ∈ (dfFiltered t fs ss ir).rows) ∧
    (∀ r ∈ (pengaruhInput t fs ss ir).rows, r ∈ (dfFiltered t fs ss ir).rows) ∧
    (∀ r ∈ (menundaInput t).rows, r ∈ (maskTable t).rows) ∧
    (∀ r ∈ (kesungguhanInput t).rows, r ∈ (maskTable t).rows) ∧
    (∀ r ∈ (dampakInput t).rows, r ∈ (maskTable t).rows) :=
  ⟨fun _ h => mem_subYa h, fun _ h => mem_subYa h, fun _ h => mem_subYa h,
    fun _ h => mem_subYa h, fun _ h => mem_subYa h⟩

/-- **C2 (amended) witness.** The surviving faculty-"A" row of the example
table is in the "ketepatan" section input and indeed in `df_filtered`. -/
theorem section_inputs_spec_witness :
    rowA2 ∈ (dfFiltered exC2T [Value.str "A"] [] none).rows :=
  (section_inputs_spec exC2T [Value.str "A"] [] none).1 rowA2 (by decide)

/-- **C3 counterexample.** `mask_npm` and `mask_phone` have no null guard:
on a missing value they do not return the input unchanged (`mask_npm`
stringifies `NaN` to `"nan"` and masks it, `mask_phone` strips it to no
digits). -/
theorem mask_null_not_identity :
    mask_npm Value.null ≠ Value.null ∧ mask_phone Value.null ≠ Value.null := by
  decide

/-- **C3 (amended).** All three maskers are pure total functions of the cell
value (never raising), but only `mask_name` passes a missing value through
unchanged: `mask_npm` turns null into `"***"` (the masked `"nan"`) and
`mask_phone` turns null into the empty string. -/
theorem mask_null_behaviour :
    mask_name Value.null = Value.null ∧
    mask_npm Value.null = Value.str "***" ∧
    mask_phone Value.null = Value.str "" := by
  decide

/-- **C5.** `mask_npm` stringifies its input; a string of length at most 3
becomes all asterisks of equal length, a longer one keeps its first 3
characters verbatim followed by exactly 5 asterisks regardless of remaining
length; in particular `"12" to "**"` and `"123456789" to "123*****"`. -/
theorem mask_npm_spec (s : String) :
    (s.data.length ≤ 3 →
      mask_npm (Value.str s) =
        Value.str (String.mk (List.replicate s.data.length '*'))) ∧
    (3 < s.data.length →
      mask_npm (Value.str s) =
        Value.str (String.mk (s.data.take 3 ++ List.replicate 5 '*'))) ∧
    mask_npm (Value.str "12") = Value.str "**" ∧
    mask_npm (Value.str "123456789") = Value.str "123*****" := by
  refine ⟨fun h => ?_, fun h => ?_, by decide, by decide⟩
  · simp [mask_npm, maskNpmL, pyStrV, show s.length ≤ 3 from h]
  · simp [mask_npm, maskNpmL, pyStrV, Nat.not_le.mpr (show 3 < s.length from h)]

/-- **C5 witness.** The two concrete shapes at `"12"` and `"123456789"`. -/
theorem mask_npm_spec_witness :
    mask_npm (Value.str "12") =
      Value.str (String.mk (List.replicate "12".data.length '*')) ∧
    mask_npm (Value.str "123456789") =
      Value.str (String.mk ("123456789".data.take 3 ++ List.replicate 5 '*')) :=
  ⟨(mask_npm_spec "12").1 (by decide), (mask_npm_spec "123456789").2.1 (by decide)⟩

-- ------------------------------------------------------------------
-- Masking pipeline lemmas (C1)
-- ------------------------------------------------------------------

theorem getCell_cons (k : String) (v : Value) (ps : Row) (c : String) :
    getCell ((k, v) :: ps) c = if k == c then v else getCell ps c := by
  by_cases h : k == c
  · rw [if_pos h]
    unfold getCell
    rw [@List.find?_cons_of_pos _ (fun p => p.1 == c) (k, v) ps h]
  · rw [if_neg h]
    unfold getCell
    rw [@List.find?_cons_of_neg _ (fun p => p.1 == c) (k, v) ps
      (by simpa using h)]

theorem mapCell_keys (r : Row) (c : String) (f : Value → Value) :
    (mapCell r c f).map Prod.fst = r.map Prod.fst := by
  unfold mapCell
  induction r with
  | nil => rfl
  | cons p ps ih =>
    simp only [List.map_cons, List.map_map] at ih ⊢
    rw [ih]
    by_cases h : p.1 == c <;> simp [h]

theorem getCell_mapCell_self (r : Row) (c : String) (f : Value → Value)
    (h : c ∈ r.map Prod.fst) : getCell (mapCell r c f) c = f (getCell r c) := by
  induction r with
  | nil => cases h
  | cons p ps ih =>
    obtain ⟨k, v⟩ := p
    by_cases hk : k == c
    · show getCell ((if k == c then (k, f v) else (k, v)) :: mapCell ps c f) c = _
      rw [if_pos hk, getCell_cons, getCell_cons, if_pos hk, if_pos hk]
    · have hc : c ∈ ps.map Prod.fst := by
        rcases List.mem_cons.mp h with h1 | h1
        · exact absurd (beq_iff_eq.mpr h1.symm) hk
        · exact h1
      show getCell ((if k == c then (k, f v) else (k, v)) :: mapCell ps c f) c = _
      rw [if_neg hk, getCell_cons, getCell_cons, if_neg hk, if_neg hk]
      exact ih hc

theorem getCell_mapCell_ne (r : Row) {c c' : String} (f : Value → Value)
    (h : c' ≠ c) : getCell (mapCell r c f) c' = getCell r c' := by
  induction r with
  | nil => rfl
  | cons p ps ih =>
    obtain ⟨k, v⟩ := p
    show getCell ((if k == c then (k, f v) else (k, v)) :: mapCell ps c f) c' = _
    by_cases hk : k == c
    · rw [if_pos hk, getCell_cons, getCell_cons]
      have hk' : (k == c') = false := by
        rw [beq_eq_false_iff_ne]
        intro h0
        exact h (h0.symm.trans (beq_iff_eq.mp hk))
      rw [hk']
      simp [ih]
    · rw [if_neg hk, getCell_cons, getCell_cons]
      by_cases hk' : k == c' <;> simp [hk', ih]

theorem hasCol_iff_mem {t : Table} {c : String} :
    hasCol t c = true ↔ c ∈ t.cols := by
  unfold hasCol
  exact List.elem_iff

theorem cols_maskCol (t : Table) (c : String) (f : Value → Value) :
    (maskCol t c f).cols = t.cols := by
  unfold maskCol
  split <;> rfl

theorem WF_maskCol {t : Table} (c : String) (f : Value → Value) (h : t.WF) :
    (maskCol t c f).WF := by
  unfold maskCol
  split
  · refine ⟨h.1, ?_⟩
    intro r hr
    obtain ⟨r0, hr0, rfl⟩ := List.mem_map.mp hr
    rw [mapCell_keys]
    exact h.2 r0 hr0
  · exact h

theorem colValues_maskCol_self {t : Table} {c : String} (f : Value → Value)
    (hwf : t.WF) (hc : hasCol t c = true) :
    colValues (maskCol t c f) c = (colValues t c).map f := by
  unfold maskCol colValues
  rw [if_pos hc]
  simp only [List.map_map]
  refine List.map_congr_left (fun r hr => ?_)
  refine getCell_mapCell_self r c f ?_
  rw [hwf.2 r hr]
  exact hasCol_iff_mem.mp hc

theorem colValues_maskCol_ne {t : Table} {c c' : String} (f : Value → Value)
    (h : c' ≠ c) : colValues (maskCol t c f) c' = colValues t c' := by
  unfold maskCol colValues
  split
  · simp only [List.map_map]
    exact List.map_congr_left (fun r _ => getCell_mapCell_ne r f h)
  · rfl

theorem hasCol_maskCol (t : Table) (c c' : String) (f : Value → Value) :
    hasCol (maskCol t c f) c' = hasCol t c' := by
  unfold hasCol
  rw [cols_maskCol]

theorem cols_maskTable (t : Table) : (maskTable t).cols = t.cols := by
  simp only [maskTable]
  split <;> rw [cols_maskCol, cols_maskCol, cols_maskCol]

theorem WF_maskTable {t : Table} (h : t.WF) : (maskTable t).WF := by
  simp only [maskTable]
  split <;> exact WF_maskCol _ _ (WF_maskCol _ _ (WF_maskCol _ _ h))

theorem colValues_maskTable_name {t : Table} (hwf : t.WF)
    (hc : hasCol t "Nama Lengkap" = true) :
    colValues (maskTable t) "Nama Lengkap" =
      (colValues t "Nama Lengkap").map mask_name := by
  simp only [maskTable]
  split
  · rw [colValues_maskCol_ne mask_phone (by decide),
      colValues_maskCol_ne mask_npm (by decide),
      colValues_maskCol_self mask_name hwf hc]
  · rw [colValues_maskCol_ne mask_phone (by decide),
      colValues_maskCol_ne mask_npm (by decide),
      colValues_maskCol_self mask_name hwf hc]

theorem colValues_maskTable_npm {t : Table} (hwf : t.WF)
    (hc : hasCol t "NPM" = true) :
    colValues (maskTable t) "NPM" = (colValues t "NPM").map mask_npm := by
  have h1 : hasCol (maskCol t "Nama Lengkap" mask_name) "NPM" = true := by
    rw [hasCol_maskCol]
    exact hc
  simp only [maskTable]
  split
  · rw [colValues_maskCol_ne mask_phone (by decide),
      colValues_maskCol_self mask_npm (WF_maskCol _ _ hwf) h1,
      colValues_maskCol_ne mask_name (by decide)]
  · rw [colValues_maskCol_ne mask_phone (by decide),
      colValues_maskCol_self mask_npm (WF_maskCol _ _ hwf) h1,
      colValues_maskCol_ne mask_name (by decide)]

theorem colValues_maskTable_wa {t : Table} (hwf : t.WF)
    (hc : hasCol t "Nomor Whatsapp" = true) :
    colValues (maskTable t) "Nomor Whatsapp" =
      (colValues t "Nomor Whatsapp").map mask_phone := by
  have h2 : hasCol (maskCol (maskCol t "Nama Lengkap" mask_name) "NPM" mask_npm)
      "Nomor Whatsapp" = true := by
    rw [hasCol_maskCol, hasCol_maskCol]
    exact hc
  simp only [maskTable]
  rw [if_pos h2]
  rw [colValues_maskCol_self mask_phone (WF_maskCol _ _ (WF_maskCol _ _ hwf)) h2,
    colValues_maskCol_ne mask_npm (by decide),
    colValues_maskCol_ne mask_name (by decide)]

theorem colValues_maskTable_tp {t : Table} (hwf : t.WF)
    (hcw : hasCol t "Nomor Whatsapp" = false)
    (hc : hasCol t "Nomor Telepon" = true) :
    colValues (maskTable t) "Nomor Telepon" =
      (colValues t "Nomor Telepon").map mask_phone := by
  have h2 : hasCol (maskCol (maskCol t "Nama Lengkap" mask_name) "NPM" mask_npm)
      "Nomor Whatsapp" = false := by
    rw [hasCol_maskCol, hasCol_maskCol]
    exact hcw
  have h3 : hasCol (maskCol (maskCol t "Nama Lengkap" mask_name) "NPM" mask_npm)
      "Nomor Telepon" = true := by
    rw [hasCol_maskCol, hasCol_maskCol]
    exact hc
  simp only [maskTable]
  rw [if_neg (by rw [h2]; exact Bool.false_ne_true)]
  rw [colValues_maskCol_self mask_phone (WF_maskCol _ _ (WF_maskCol _ _ hwf)) h3,
    colValues_maskCol_ne mask_npm (by decide),
    colValues_maskCol_ne mask_name (by decide)]

theorem colValues_sub_of_rows_sub {big small : Table}
    (h : ∀ r ∈ small.rows, r ∈ big.rows) (c : String) :
    ∀ v ∈ colValues small c, v ∈ colValues big c := by
  intro v hv
  obtain ⟨r, hr, rfl⟩ := List.mem_map.mp hv
  exact List.mem_map.mpr ⟨r, h r hr, rfl⟩

/-- **C1.** Masking happens on the base table before the sidebar filters run
(`dfFiltered t = applyFilters (maskTable t) ...`), hence for every filter
selection the displayed table — which is also exactly the CSV-exported
table — holds only masked values in the identity columns: every name cell
is `mask_name` of an original name, every student-id cell `mask_npm` of an
original id, and every phone cell `mask_phone` of an original phone number
(from the "Nomor Whatsapp" column if it exists, else "Nomor Telepon"). -/
theorem masked_before_display_export (t : Table) (fs ss : List Value)
    (ir : Option (Rat × Rat)) (hwf : t.WF) :
    (hasCol t "Nama Lengkap" = true →
      ∀ v ∈ colValues (dfFiltered t fs ss ir) "Nama Lengkap",
        ∃ u ∈ colValues t "Nama Lengkap", v = mask_name u) ∧
    (hasCol t "NPM" = true →
      ∀ v ∈ colValues (dfFiltered t fs ss ir) "NPM",
        ∃ u ∈ colValues t "NPM", v = mask_npm u) ∧
    (hasCol t "Nomor Whatsapp" = true →
      ∀ v ∈ colValues (dfFiltered t fs ss ir) "Nomor Whatsapp",
        ∃ u ∈ colValues t "Nomor Whatsapp", v = mask_phone u) ∧
    (hasCol t "Nomor Whatsapp" = false → hasCol t "Nomor Telepon" = true →
      ∀ v ∈ colValues (dfFiltered t fs ss ir) "Nomor Telepon",
        ∃ u ∈ colValues t "Nomor Telepon", v = mask_phone u) := by
  have hsub : ∀ r ∈ (dfFiltered t fs ss ir).rows, r ∈ (maskTable t).rows :=
    fun _ hr => mem_rows_of_mem_applyFilters hr
  refine ⟨fun hc v hv => ?_, fun hc v hv => ?_, fun hc v hv => ?_,
    fun hcw hc v hv => ?_⟩
  · have hv2 := colValues_sub_of_rows_sub hsub "Nama Lengkap" v hv
    rw [colValues_maskTable_name hwf hc] at hv2
    obtain ⟨u, hu, rfl⟩ := List.mem_map.mp hv2
    exact ⟨u, hu, rfl⟩
  · have hv2 := colValues_sub_of_rows_sub hsub "NPM" v hv
    rw [colValues_maskTable_npm hwf hc] at hv2
    obtain ⟨u, hu, rfl⟩ := List.mem_map.mp hv2
    exact ⟨u, hu, rfl⟩
  · have hv2 := colValues_sub_of_rows_sub hsub "Nomor Whatsapp" v hv
    rw [colValues_maskTable_wa hwf hc] at hv2
    obtain ⟨u, hu, rfl⟩ := List.mem_map.mp hv2
    exact ⟨u, hu, rfl⟩
  · have hv2 := colValues_sub_of_rows_sub hsub "Nomor Telepon" v hv
    rw [colValues_maskTable_tp hwf hcw hc] at hv2
    obtain ⟨u, hu, rfl⟩ := List.mem_map.mp hv2
    exact ⟨u, hu, rfl⟩

/-- **C1 witness.** On the one-row example table, the displayed/exported
name cell `"B*** A**"` is the mask of an original name cell. -/
theorem masked_before_display_export_witness :
    ∃ u ∈ colValues exC1T "Nama Lengkap", Value.str "B*** A**" = mask_name u :=
  (masked_before_display_export exC1T [] [] none ⟨by decide, by decide⟩).1 (by decide)
    (Value.str "B*** A**") (by decide)

-- ------------------------------------------------------------------
-- mask_name token structure (C9)
-- ------------------------------------------------------------------

theorem splitWsRaw_ne_nil (s : List Char) : splitWsRaw s ≠ [] := by
  induction s with
  | nil => simp [splitWsRaw]
  | cons c cs ih =>
    unfold splitWsRaw
    by_cases h : c.isWhitespace
    · simp [h]
    · rcases hcs : splitWsRaw cs with _ | ⟨w, ws⟩ <;> simp [h, hcs]

theorem splitWsRaw_no_space {s : List Char} :
    ∀ w ∈ splitWsRaw s, ∀ ch ∈ w, ch.isWhitespace = false := by
  induction s with
  | nil =>
    intro w hw ch hch
    simp [splitWsRaw] at hw
    subst hw
    cases hch
  | cons c cs ih =>
    intro w hw ch hch
    unfold splitWsRaw at hw
    by_cases h : c.isWhitespace
    · simp only [h, if_true] at hw
      rcases List.mem_cons.mp hw with rfl | hw2
      · cases hch
      · exact ih w hw2 ch hch
    · simp only [h, if_false] at hw
      rcases hcs : splitWsRaw cs with _ | ⟨w0, ws⟩
      · exact absurd hcs (splitWsRaw_ne_nil cs)
      · rw [hcs] at hw
        rcases List.mem_cons.mp hw with rfl | hw2
        · rcases List.mem_cons.mp hch with rfl | hch2
          · exact Bool.eq_false_iff.mpr h
          · exact ih w0 (by rw [hcs]; exact List.mem_cons_self w0 ws) ch hch2
        · exact ih w (by rw [hcs]; exact List.mem_cons_of_mem w0 hw2) ch hch

theorem splitWsRaw_append {w rest : List Char} {w0 : List Char}
    {ws : List (List Char)} (hw : ∀ c ∈ w, c.isWhitespace = false)
    (h : splitWsRaw rest = w0 :: ws) :
    splitWsRaw (w ++ rest) = (w ++ w0) :: ws := by
  induction w with
  | nil => simpa using h
  | cons c cw ih =>
    have hc : c.isWhitespace = false := hw c (List.mem_cons_self c cw)
    have hcw : ∀ x ∈ cw, x.isWhitespace = false :=
      fun x hx => hw x (List.mem_cons_of_mem c hx)
    show splitWsRaw (c :: (cw ++ rest)) = ((c :: cw) ++ w0) :: ws
    unfold splitWsRaw
    rw [ih hcw]
    simp [hc]

theorem splitWsRaw_single {w : List Char}
    (hw : ∀ c ∈ w, c.isWhitespace = false) : splitWsRaw w = [w] := by
  have h0 : splitWsRaw ([] : List Char) = [] :: [] := rfl
  have := splitWsRaw_append hw h0
  simpa using this

theorem splitWs_joinSp {ws : List (List Char)} (h1 : ∀ w ∈ ws, w ≠ [])
    (h2 : ∀ w ∈ ws, ∀ c ∈ w, c.isWhitespace = false) :
    splitWs (joinSp ws) = ws := by
  induction ws with
  | nil => rfl
  | cons w tail ih =>
    cases tail with
    | nil =>
      show splitWs (joinSp [w]) = [w]
      unfold joinSp splitWs
      rw [splitWsRaw_single (h2 w (List.mem_cons_self w []))]
      have hw := h1 w (List.mem_cons_self w [])
      have hne : w.isEmpty = false := by
        cases w
        · exact absurd rfl hw
        · rfl
      simp [hne]
    | cons w' ws' =>
      have hmem : w ∈ w :: w' :: ws' := List.mem_cons_self w _
      have htail : ∀ x ∈ w' :: ws', x ≠ [] :=
        fun x hx => h1 x (List.mem_cons_of_mem w hx)
      have htail2 : ∀ x ∈ w' :: ws', ∀ c ∈ x, c.isWhitespace = false :=
        fun x hx => h2 x (List.mem_cons_of_mem w hx)
      have hj : joinSp (w :: w' :: ws') = w ++ ' ' :: joinSp (w' :: ws') := rfl
      have hsp : splitWsRaw (' ' :: joinSp (w' :: ws')) =
          [] :: splitWsRaw (joinSp (w' :: ws')) := rfl
      rcases hrec : splitWsRaw (joinSp (w' :: ws')) with _ | ⟨r0, rs⟩
      · exact absurd hrec (splitWsRaw_ne_nil _)
      · have hraw : splitWsRaw (joinSp (w :: w' :: ws')) = (w ++ []) :: r0 :: rs := by
          rw [hj]
          exact splitWsRaw_append (h2 w hmem) (by rw [hsp, hrec])
        have hw := h1 w hmem
        have hne : w.isEmpty = false := by
          cases w
          · exact absurd rfl hw
          · rfl
        unfold splitWs
        rw [hraw]
        have hihs : splitWs (joinSp (w' :: ws')) = w' :: ws' := ih htail htail2
        unfold splitWs at hihs
        rw [hrec] at hihs
        simp only [List.append_nil]
        rw [List.filter_cons]
        simp only [hne, Bool.not_false, if_true]
        rw [hihs]

theorem maskToken_ne_nil {w : List Char} (h : w ≠ []) : maskToken w ≠ [] := by
  cases w
  · exact absurd rfl h
  · simp [maskToken]

theorem maskToken_no_space {w : List Char}
    (h : ∀ c ∈ w, c.isWhitespace = false) :
    ∀ c ∈ maskToken w, c.isWhitespace = false := by
  cases w with
  | nil => intro c hc; cases hc
  | cons a cs =>
    intro c hc
    rcases List.mem_cons.mp hc with rfl | hc2
    · exact h c (List.mem_cons_self c cs)
    · rw [List.eq_of_mem_replicate hc2]
      decide

theorem maskToken_length (w : List Char) : (maskToken w).length = w.length := by
  cases w <;> simp [maskToken]

theorem maskToken_head (w : List Char) : (maskToken w).head? = w.head? := by
  cases w <;> simp [maskToken]

theorem maskToken_drop (w : List Char) :
    (maskToken w).drop 1 = List.replicate (w.length - 1) '*' := by
  cases w <;> simp [maskToken]

theorem mem_splitWs_ne_nil {s : List Char} {w : List Char}
    (h : w ∈ splitWs s) : w ≠ [] := by
  have := (List.mem_filter.mp h).2
  intro h0
  subst h0
  simp at this

theorem mem_splitWs_no_space {s : List Char} {w : List Char}
    (h : w ∈ splitWs s) : ∀ c ∈ w, c.isWhitespace = false :=
  splitWsRaw_no_space w (List.mem_of_mem_filter h)

theorem splitWs_maskNameL (s : List Char) :
    splitWs (maskNameL s) = (splitWs s).map maskToken := by
  unfold maskNameL
  refine splitWs_joinSp ?_ ?_
  · intro w hw
    obtain ⟨w0, hw0, rfl⟩ := List.mem_map.mp hw
    exact maskToken_ne_nil (mem_splitWs_ne_nil hw0)
  · intro w hw
    obtain ⟨w0, hw0, rfl⟩ := List.mem_map.mp hw
    exact maskToken_no_space (mem_splitWs_no_space hw0)

/-- **C9.** `mask_name` passes a missing value through unchanged; on any
string it splits into whitespace-separated tokens, masks each token to its
first character followed by `len - 1` asterisks, and rejoins with single
spaces, so the output has exactly the tokens `maskToken` of the input's
tokens — in particular the same number of tokens, each with preserved
length, preserved first character, and asterisks everywhere after it. -/
theorem mask_name_spec :
    mask_name Value.null = Value.null ∧
    ∀ s : String,
      mask_name (Value.str s) = Value.str (String.mk (maskNameL s.data)) ∧
      splitWs (maskNameL s.data) = (splitWs s.data).map maskToken ∧
      (splitWs (maskNameL s.data)).length = (splitWs s.data).length ∧
      ∀ w ∈ splitWs s.data,
        (maskToken w).length = w.length ∧
        (maskToken w).head? = w.head? ∧
        (maskToken w).drop 1 = List.replicate (w.length - 1) '*' := by
  refine ⟨rfl, fun s => ⟨rfl, splitWs_maskNameL s.data, ?_, fun w _ =>
    ⟨maskToken_length w, maskToken_head w, maskToken_drop w⟩⟩⟩
  rw [splitWs_maskNameL s.data, List.length_map]

/-- **C9 witness.** The token `"Budi"` of `"Budi Santoso"`: its mask keeps
length 4, keeps the head `'B'`, and is asterisks afterwards. -/
theorem mask_name_spec_witness :
    (maskToken ['B', 'u', 'd', 'i']).length = (['B', 'u', 'd', 'i'] : List Char).length ∧
    (maskToken ['B', 'u', 'd', 'i']).head? = (['B', 'u', 'd', 'i'] : List Char).head? ∧
    (maskToken ['B', 'u', 'd', 'i']).drop 1 =
      List.replicate ((['B', 'u', 'd', 'i'] : List Char).length - 1) '*' :=
  (mask_name_spec.2 "Budi Santoso").2.2.2 ['B', 'u', 'd', 'i'] (by decide)

end Mihu
